import Mathlib

/-!
Shallow embedding of the `TaskScheduler` Durable Object from
`src/task_scheduler_do.ts` (together with the record types from the
repository's `types.ts`), and proofs about the claims of the
natural-language specification.

Modelling conventions:
* Instants are epoch milliseconds (`Int`).  `new Date(t).toISOString()`
  round-trips exactly through `Date.parse`, so an ISO string produced by
  the code is represented by its millisecond value.
* A JS string field that the code inspects only through truthiness and
  `Date.parse` is represented by its parse outcome
  `Option (Option Int)`: `none` = absent or falsy (`undefined`, `null`,
  `""`), `some none` = present but unparsable, `some (some t)` = parses
  to instant `t`.
* `Date.now()` / `new Date()` calls inside one handler invocation are
  modelled by a single `now` parameter: the handler runs to completion
  without suspension between those reads in the claims' scenarios.
* Durable-object storage is an association list keyed by task id; the
  `task:{id}:lastRun` markers and the `__events` log live in separate
  components of the state, mirroring their disjoint key spaces.
* `crypto.randomUUID()` draws are passed in as explicit identifier
  parameters (a supply `Nat → String` for the alarm loop); no claim
  inspects the generated identifiers.
* JS `Number` on a digit string is modelled exactly as a natural number;
  IEEE-754 rounding above 2^53 and overflow to `Infinity` above ≈1e308
  (which only occur for cron intervals of ≥ 2^53 minutes) are not
  modelled.
* `String.prototype.trim` is modelled by dropping ASCII whitespace on
  both ends of the character list (JS additionally trims rare Unicode
  space characters).
-/

namespace TaskScheduler

/-- A JS string field seen through truthiness and `Date.parse`:
`none` = absent/falsy, `some none` = present but unparsable,
`some (some t)` = parses to epoch-millisecond instant `t`. -/
abbrev TsField := Option (Option Int)

/-- The `timing` tagged variant of a task (types.ts).  For `datetime`,
`whenMs` is the parse outcome of the `when` string (`none` = falsy or
unparsable).  For `delay`, `seconds` is `Number(timing.seconds)` when
finite (`none` = `NaN`/infinite), idealized to an integer. -/
inductive TaskTiming where
  | datetime (whenMs : Option Int)
  | delay (seconds : Option Int)
  | natural (text : String)
  | recurring (cron : String)
  deriving Repr, DecidableEq

/-- The `Task` record (types.ts). `metadata` is carried opaquely as a
key/value list; no claim observes it. -/
structure Task where
  id : String
  title : String
  description : Option String
  createdAt : Int
  timing : TaskTiming
  recurrence : Option String
  enabled : Bool
  nextRun : TsField
  metadata : List (String × String)
  deriving Repr, DecidableEq

/-- The `TaskEventKind` union (types.ts). -/
inductive TaskEventKind where
  | created | updated | fired | disabled | failed
  deriving Repr, DecidableEq

/-- The `TaskEvent` record (types.ts).  `occurredAt` is the parse
outcome of the event's ISO timestamp (always valid for events the code
writes). -/
structure TaskEvent where
  id : String
  taskId : String
  title : String
  kind : TaskEventKind
  occurredAt : Option Int
  nextRun : TsField
  note : String
  deriving Repr, DecidableEq

/-- Association-list read, modelling `state.storage.get` for one key
space. -/
def storageGet {α : Type} (k : String) : List (String × α) → Option α
  | [] => none
  | (k', v) :: rest => if k' = k then some v else storageGet k rest

/-- Association-list write, modelling `state.storage.put` for one key
space: overwrite the existing entry or append a new one. -/
def storagePut {α : Type} (k : String) (v : α) : List (String × α) → List (String × α)
  | [] => [(k, v)]
  | (k', v') :: rest => if k' = k then (k, v) :: rest else (k', v') :: storagePut k v rest

/-- The full state of one `TaskScheduler` instance: durable storage
(`index`, `tasks`, `lastRun`, `events`) plus the in-memory fields
`_pendingAlarmIso` / `_lastAlarmIso` and the platform's durable alarm
(`armed`, the argument of the last successful `setAlarm`). -/
structure SchedState where
  index : List String
  tasks : List (String × Task)
  lastRun : List (String × Int)
  events : List TaskEvent
  pending : Option Int
  lastFired : Option Int
  armed : Option Int
  deriving Repr, DecidableEq

/-! ### RecurrenceEngine: computeNextFromSimpleCron (lines 94-100) -/

/-- Decimal value of a digit string, modelling JS `Number` on the
capture of `(\d+)` (exact below 2^53, see header). -/
def digitsVal (ds : List Char) : Nat :=
  ds.foldl (fun acc c => acc * 10 + (c.toNat - 48)) 0

/-- The literal tail `" * * * *"` of the supported cron pattern. -/
def cronTail : List Char := [' ', '*', ' ', '*', ' ', '*', ' ', '*']

/-- Model of `String.prototype.trim` on the character list (see
header). -/
def trimChars (cs : List Char) : List Char :=
  ((cs.dropWhile Char.isWhitespace).reverse.dropWhile Char.isWhitespace).reverse

/-- The regex match `^\*\/(\d+) \* \* \* \*$` of line 95: the input must
be `*/` followed by a non-empty maximal digit run followed by exactly
`" * * * *"`; on success returns the numeric value of the digit run. -/
def matchEveryN (cs : List Char) : Option Nat :=
  match cs with
  | c1 :: c2 :: rest =>
      if c1 = '*' ∧ c2 = '/' then
        let ds := rest.takeWhile Char.isDigit
        if ds.isEmpty then none
        else if rest.dropWhile Char.isDigit = cronTail then some (digitsVal ds)
        else none
      else none
  | _ => none

/-- `computeNextFromSimpleCron(expr, from)` (lines 94-100): trim, match
the `*/N * * * *` pattern, require `N > 0`, and return
`from + N minutes`. -/
def computeNextFromSimpleCron (expr : String) (fromMs : Int) : Option Int :=
  match matchEveryN (trimChars expr.toList) with
  | none => none
  | some n => if n = 0 then none else some (fromMs + (n : Int) * 60000)

/-! ### EventLog: appendEvents (lines 351-361) and getEvents (340-349) -/

/-- The `EVENT_HISTORY_LIMIT` constant (line 12). -/
def EVENT_HISTORY_LIMIT : Nat := 120

/-- `appendEvents(events)` (lines 351-361) as a pure log transformer:
no-op on an empty batch, otherwise concatenate and keep the last
`EVENT_HISTORY_LIMIT` entries (`merged.slice(merged.length - LIMIT)`
is `List.drop`). -/
def appendEvents (events : List TaskEvent) (log : List TaskEvent) : List TaskEvent :=
  if events.isEmpty then log
  else
    let merged := log ++ events
    if merged.length ≤ EVENT_HISTORY_LIMIT then merged
    else merged.drop (merged.length - EVENT_HISTORY_LIMIT)

/-- `getEvents(sinceIso)` (lines 340-349): a falsy (`none`) or
unparsable (`some none`) cursor returns the whole log; otherwise keep
the events whose `occurredAt` parses and is strictly greater than the
cursor. -/
def getEvents (sinceIso : TsField) (log : List TaskEvent) : List TaskEvent :=
  match sinceIso with
  | none => log
  | some none => log
  | some (some since) =>
      log.filter fun evt =>
        match evt.occurredAt with
        | some ts => decide (since < ts)
        | none => false

/-! ### AlarmScheduler: scheduleAlarm (lines 27-91, durable path)

The model covers the durable path (`state.setAlarm` available and not
throwing): `armed` records the instant handed to `setAlarm`.  The
volatile in-memory timer fallback of lines 60-90 (dev mode) is not
modelled; the claims concern the skip rules and the `pending` field,
which the source updates identically on both paths. -/

/-- The `JITTER_MS` window (line 31). -/
def JITTER_MS : Int := 50

/-- `scheduleAlarm(date)` (lines 27-55): skip near-past candidates, skip
when an armed `pending` is at or before the candidate, skip a candidate
equal to the just-fired instant; otherwise record `pending` and arm the
durable alarm. -/
def scheduleAlarm (now : Int) (dateMs : Int) (s : SchedState) : SchedState :=
  if dateMs ≤ now + JITTER_MS then s
  else
    let dup : Bool :=
      match s.pending with
      | some existing => decide (existing ≤ dateMs)
      | none => false
    if dup then s
    else if s.lastFired = some dateMs then s
    else { s with pending := some dateMs, armed := some dateMs }

/-! ### Lifecycle Controller: the alarm handler (lines 259-338) -/

/-- The `TOLERANCE_MS` window (line 270). -/
def TOLERANCE_MS : Int := 250

/-- The `MIN_FUTURE_MS` buffer (line 331). -/
def MIN_FUTURE_MS : Int := 25

/-- Truthiness of the optional `recurrence` string: `null`, `undefined`
and `""` are falsy (the `!task.recurrence` test of line 288). -/
def recTruthy : Option String → Bool
  | some str => !str.isEmpty
  | none => false

/-- The cron expression chosen for a due recurring task (line 294):
`task.timing.cron` when the timing variant is `recurring`, otherwise
`task.recurrence || ""`. -/
def cronExprOf (task : Task) : String :=
  match task.timing with
  | .recurring c => c
  | _ => task.recurrence.getD ""

/-- The `task.title || "Untitled task"` fallback of line 313. -/
def titleOrDefault (t : String) : String :=
  if t.isEmpty then "Untitled task" else t

/-- The `earliest === null || t < earliest` update of lines 299/321. -/
def mergeEarliest (e : Option Int) (t : Int) : Option Int :=
  match e with
  | none => some t
  | some cur => if t < cur then some t else some cur

/-- The mutable locals of the alarm loop of lines 272-323: the task and
last-run stores, the `earliest` candidate, the `firedEvents` array, and
the number of `crypto.randomUUID()` draws made so far. -/
structure CycleSt where
  tasks : List (String × Task)
  lastRun : List (String × Int)
  earliest : Option Int
  fired : List TaskEvent
  k : Nat
  deriving Repr, DecidableEq

/-- One iteration of the `for (const id of idx)` loop (lines 277-323):
skip a missing, disabled, `nextRun`-less or unparsable task; fire a due
task (record the last-run marker, then disable it, reschedule it, or
disable it for an invalid cron, and push a `fired` event); track a
strictly-future `nextRun` as an `earliest` candidate otherwise. -/
def alarmVisit (evIds : Nat → String) (now : Int) (id : String) (st : CycleSt) : CycleSt :=
  match storageGet id st.tasks with
  | none => st
  | some task =>
    if task.enabled = false then st
    else match task.nextRun with
      | none => st
      | some none => st
      | some (some nextRun) =>
        if nextRun ≤ now + TOLERANCE_MS then
          let lastRun1 := storagePut id now st.lastRun
          if recTruthy task.recurrence = false then
            let task1 := { task with enabled := false, nextRun := none }
            let ev : TaskEvent :=
              { id := evIds st.k, taskId := id, title := titleOrDefault task.title,
                kind := .fired, occurredAt := some now, nextRun := none,
                note := "Task completed" }
            { tasks := storagePut id task1 st.tasks, lastRun := lastRun1,
              earliest := st.earliest, fired := st.fired ++ [ev], k := st.k + 1 }
          else
            match computeNextFromSimpleCron (cronExprOf task) now with
            | some nextTime =>
              let task1 := { task with nextRun := some (some nextTime) }
              let ev : TaskEvent :=
                { id := evIds st.k, taskId := id, title := titleOrDefault task.title,
                  kind := .fired, occurredAt := some now,
                  nextRun := some (some nextTime),
                  note := "Recurring task rescheduled" }
              { tasks := storagePut id task1 st.tasks, lastRun := lastRun1,
                earliest := mergeEarliest st.earliest nextTime,
                fired := st.fired ++ [ev], k := st.k + 1 }
            | none =>
              let task1 := { task with enabled := false, nextRun := none }
              let ev : TaskEvent :=
                { id := evIds st.k, taskId := id, title := titleOrDefault task.title,
                  kind := .fired, occurredAt := some now, nextRun := none,
                  note := "Recurring task disabled (invalid cron)" }
              { tasks := storagePut id task1 st.tasks, lastRun := lastRun1,
                earliest := st.earliest, fired := st.fired ++ [ev], k := st.k + 1 }
        else
          { st with earliest :=
              if now + TOLERANCE_MS < nextRun then mergeEarliest st.earliest nextRun
              else st.earliest }

/-- The whole loop of lines 277-323 over the id index. -/
def alarmLoop (evIds : Nat → String) (now : Int) : List String → CycleSt → CycleSt
  | [], st => st
  | id :: rest, st => alarmLoop evIds now rest (alarmVisit evIds now id st)

/-- The `fired` batch produced by one wake cycle over state `s` at
instant `now`. -/
def alarmFired (evIds : Nat → String) (now : Int) (s : SchedState) : List TaskEvent :=
  (alarmLoop evIds now s.index ⟨s.tasks, s.lastRun, none, [], 0⟩).fired

/-- `alarm()` (lines 259-338): capture and clear the pending instant as
`lastFired` (falling back to `now`), run the due-task loop, append the
fired batch, and re-arm the alarm on the (forward-clamped) earliest
future candidate. -/
def alarmStep (evIds : Nat → String) (now : Int) (s : SchedState) : SchedState :=
  let s1 := { s with pending := none, lastFired := some (s.pending.getD now) }
  let out := alarmLoop evIds now s.index ⟨s.tasks, s.lastRun, none, [], 0⟩
  let s2 := { s1 with tasks := out.tasks, lastRun := out.lastRun,
                      events := if out.fired.isEmpty then s1.events
                                else appendEvents out.fired s1.events }
  match out.earliest with
  | none => s2
  | some e =>
      let target := if e ≤ now + MIN_FUTURE_MS then now + 500 else e
      scheduleAlarm now target s2

/-! ### Creation notes (lines 372-454)

No claim observes the wording of `created` events, but the note is part
of the persisted event, so the builders are embedded.  The
`Intl.DateTimeFormat` rendering of `formatIsoUtc` is abstracted to a
decimal rendering of the parsed instant (the raw string of an
unparsable input, returned verbatim by the source, is not carried by
the model). -/

/-- `formatIsoUtc(iso)` (lines 403-418) on the parse outcome of its
argument; see the section comment for the abstraction. -/
def formatIsoUtc : Option Int → String
  | none => "unknown"
  | some t => toString t ++ " UTC"

/-- One pass of the unit loop of `formatDuration` (lines 429-438). -/
def durationParts : List (String × Int) → Int → List String → List String
  | [], _, parts => parts
  | (label, value) :: rest, remaining, parts =>
    if remaining < value then durationParts rest remaining parts
    else
      let count := remaining / value
      let remaining1 := remaining - count * value
      let suffix := if count = 1 then label else label ++ "s"
      let parts1 := parts ++ [toString count ++ " " ++ suffix]
      if parts1.length = 2 then parts1
      else durationParts rest remaining1 parts1

/-- `formatDuration(secondsRaw)` (lines 420-440); a non-finite input
(`none`) collapses to 0 as in the source. -/
def formatDuration (secondsRaw : Option Int) : String :=
  let seconds : Int := match secondsRaw with | some v => max 0 v | none => 0
  if seconds ≤ 0 then "less than a second"
  else
    let parts := durationParts
      [("day", 86400), ("hour", 3600), ("minute", 60), ("second", 1)] seconds []
    if parts.isEmpty then "less than a second" else String.intercalate " " parts

/-- `describeRecurringCron(expr)` (lines 442-454). -/
def describeRecurringCron (expr : String) : String :=
  let cron := trimChars expr.toList
  if cron = "* * * * *".toList then "Repeats every minute"
  else
    let fallback := "Repeats with cron \"" ++ String.mk cron ++ "\""
    match matchEveryN cron with
    | some minutes =>
        if 0 < minutes then
          "Repeats every " ++ toString minutes ++
            (if minutes = 1 then " minute" else " minutes")
        else fallback
    | none => fallback

/-- `buildCreationNote(task)` (lines 372-401).  The `try`/`catch` of the
source cannot throw in the model; the final fallback line is reachable
only for the `natural` variant there and is preserved structurally. -/
def buildCreationNote (task : Task) : String :=
  match task.timing with
  | .datetime w =>
      (match task.nextRun with
       | none => "Scheduled for " ++ formatIsoUtc w
       | nr => "Scheduled for " ++ formatIsoUtc nr.join)
  | .delay secs =>
      let duration := formatDuration secs
      (match task.nextRun with
       | none => "Runs in " ++ duration
       | nr => "Runs in " ++ duration ++ " (≈ " ++ formatIsoUtc nr.join ++ ")")
  | .recurring cron =>
      let recurringCopy := describeRecurringCron cron
      (match task.nextRun with
       | none => recurringCopy
       | nr => recurringCopy ++ ". Next at " ++ formatIsoUtc nr.join)
  | .natural text =>
      let t := trimChars text.toList
      if t.isEmpty then "Timing: natural"
      else "Natural timing \"" ++ String.mk t ++ "\""

/-! ### Task creation: the POST /tasks branch of fetch (lines 159-252) -/

/-- The `timing` property of a create request body: absent / non-object
/ falsy `type` (`missing`), a `type` outside the allowed list
(`unknown`), or a well-tagged variant (`known`). -/
inductive TimingInput where
  | missing
  | unknown (ty : String)
  | known (t : TaskTiming)
  deriving Repr, DecidableEq

/-- A parsed create-request body (a body that fails JSON parsing is
answered 400 before this point and touches no state). `title = ""`
models a falsy or absent title. -/
structure CreateBody where
  title : String
  description : Option String
  timing : TimingInput
  recurrence : Option String
  enabled : Option Bool
  metadata : List (String × String)
  deriving Repr, DecidableEq

/-- The `body.enabled !== false` default of line 202. -/
def enabledDefault : Option Bool → Bool
  | some false => false
  | _ => true

/-- The state mutations of lines 222-248 once validation has passed:
persist the task, append its id to the index, arm the alarm when a
parseable `nextRun` was computed, and append the `created` event. -/
def finishCreate (now : Int) (taskId evId : String) (body : CreateBody)
    (timing : TaskTiming) (nextRun : TsField) (s : SchedState) : Nat × SchedState :=
  let task : Task :=
    { id := taskId
      title := if body.title.isEmpty then "Untitled" else body.title
      description := body.description
      createdAt := now
      timing := timing
      recurrence := body.recurrence
      enabled := enabledDefault body.enabled
      nextRun := nextRun
      metadata := body.metadata }
  let s1 := { s with tasks := storagePut taskId task s.tasks,
                     index := s.index ++ [taskId] }
  let s2 :=
    match nextRun with
    | some (some t) => scheduleAlarm now t s1
    | _ => s1
  let ev : TaskEvent :=
    { id := evId, taskId := taskId, title := task.title, kind := .created,
      occurredAt := some now, nextRun := nextRun,
      note := buildCreationNote task }
  (201, { s2 with events := appendEvents [ev] s2.events })

/-- The POST /tasks handler (lines 159-252): validation (each failure
answers 400 before any write), `nextRun` computation per timing
variant, then `finishCreate`.  The source checks the delay, datetime
and natural variants in sequence; the variants are mutually exclusive,
so the per-variant match is equivalent. -/
def createTask (now : Int) (taskId evId : String) (body : CreateBody)
    (s : SchedState) : Nat × SchedState :=
  match body.timing with
  | .missing => (400, s)
  | .unknown _ => (400, s)
  | .known (.natural _) => (400, s)
  | .known (.delay none) => (400, s)
  | .known (.delay (some secs)) =>
      if secs ≤ 0 then (400, s)
      else finishCreate now taskId evId body (.delay (some secs))
             (some (some (now + secs * 1000))) s
  | .known (.datetime none) => (400, s)
  | .known (.datetime (some w)) =>
      finishCreate now taskId evId body (.datetime (some w)) (some (some w)) s
  | .known (.recurring cron) =>
      match computeNextFromSimpleCron cron now with
      | some next => finishCreate now taskId evId body (.recurring cron)
                       (some (some next)) s
      | none => finishCreate now taskId evId body (.recurring cron) none s

/-! ## Theorems -/

/-- A sample event used to instantiate universally quantified claims. -/
def sampleEvent : TaskEvent :=
  { id := "e0", taskId := "t0", title := "T", kind := .created,
    occurredAt := some 0, nextRun := none, note := "sample" }

/-- C6: for every non-empty batch and prior log, the stored log
afterwards is exactly the last `EVENT_HISTORY_LIMIT` entries of the
prior log concatenated with the batch, so it never exceeds the cap and
on overflow the oldest entries are dropped first (the result is a
suffix of the concatenation). -/
theorem C6_eventlog_cap (events log : List TaskEvent) (h : events ≠ []) :
    appendEvents events log
      = (log ++ events).drop ((log ++ events).length - EVENT_HISTORY_LIMIT) ∧
    (appendEvents events log).length ≤ EVENT_HISTORY_LIMIT ∧
    (appendEvents events log) <:+ (log ++ events) := by
  have hne : events.isEmpty = false := by
    cases events with
    | nil => exact absurd rfl h
    | cons a l => rfl
  unfold appendEvents
  rw [hne]
  simp only [Bool.false_eq_true, if_false]
  by_cases hle : (log ++ events).length ≤ EVENT_HISTORY_LIMIT
  · rw [if_pos hle]
    refine ⟨?_, hle, List.suffix_refl _⟩
    rw [Nat.sub_eq_zero_of_le hle, List.drop_zero]
  · rw [if_neg hle]
    refine ⟨rfl, ?_, List.drop_suffix _ _⟩
    rw [List.length_drop]
    omega

/-- Witness for C6 at a concrete one-event batch over an empty log. -/
theorem C6_eventlog_cap_witness :
    appendEvents [sampleEvent] []
      = (([] : List TaskEvent) ++ [sampleEvent]).drop
          ((([] : List TaskEvent) ++ [sampleEvent]).length - EVENT_HISTORY_LIMIT) ∧
    (appendEvents [sampleEvent] []).length ≤ EVENT_HISTORY_LIMIT ∧
    (appendEvents [sampleEvent] []) <:+ (([] : List TaskEvent) ++ [sampleEvent]) :=
  C6_eventlog_cap [sampleEvent] [] (by decide)

/-- C7: for a cursor that parses to instant `since`, `getEvents` returns
a sublist of the log (so chronological append order is preserved)
containing exactly the logged events whose `occurredAt` parses to an
instant strictly greater than `since`. -/
theorem C7_getEvents_filter (since : Int) (log : List TaskEvent) :
    (getEvents (some (some since)) log).Sublist log ∧
    ∀ e : TaskEvent, e ∈ getEvents (some (some since)) log ↔
      e ∈ log ∧ ∃ ts, e.occurredAt = some ts ∧ since < ts := by
  constructor
  · exact List.filter_sublist _
  · intro e
    show e ∈ log.filter _ ↔ _
    rw [List.mem_filter]
    constructor
    · rintro ⟨hmem, hp⟩
      refine ⟨hmem, ?_⟩
      cases hocc : e.occurredAt with
      | none => rw [hocc] at hp; exact absurd hp (by simp)
      | some ts =>
          rw [hocc] at hp
          exact ⟨ts, rfl, by simpa using hp⟩
    · rintro ⟨hmem, ts, hocc, hlt⟩
      refine ⟨hmem, ?_⟩
      rw [hocc]
      simpa using hlt

/-- C10: a `since` cursor that is present but does not parse as a
timestamp returns the entire stored event log. -/
theorem C10_getEvents_bad_cursor (log : List TaskEvent) :
    getEvents (some none) log = log := rfl

/-- The three skip conditions of `scheduleAlarm`: a near-past candidate,
an already-armed pending instant at or before the candidate, or a
candidate equal to the just-fired instant. -/
def schedSkip (now dateMs : Int) (s : SchedState) : Prop :=
  dateMs ≤ now + JITTER_MS ∨
  (∃ existing, s.pending = some existing ∧ existing ≤ dateMs) ∨
  s.lastFired = some dateMs

/-- C8: `scheduleAlarm` leaves the state (in particular `pending` and
the armed wake) unchanged exactly under the skip conditions; otherwise
it records the candidate as `pending` and arms the durable wake for
it. -/
theorem C8_scheduleAlarm_rules (now dateMs : Int) (s : SchedState) :
    (schedSkip now dateMs s → scheduleAlarm now dateMs s = s) ∧
    (¬ schedSkip now dateMs s →
      scheduleAlarm now dateMs s
        = { s with pending := some dateMs, armed := some dateMs }) := by
  unfold scheduleAlarm schedSkip
  by_cases h1 : dateMs ≤ now + JITTER_MS
  · rw [if_pos h1]
    exact ⟨fun _ => rfl, fun hn => absurd (Or.inl h1) hn⟩
  · rw [if_neg h1]
    cases hp : s.pending with
    | none =>
        simp only []
        by_cases h3 : s.lastFired = some dateMs
        · rw [if_pos h3]
          refine ⟨fun _ => rfl, fun hn => absurd (Or.inr (Or.inr h3)) hn⟩
        · rw [if_neg h3]
          refine ⟨?_, fun _ => rfl⟩
          rintro (h | ⟨ex, hex, _⟩ | h)
          · exact absurd h h1
          · exact absurd hex (by simp)
          · exact absurd h h3
    | some existing =>
        simp only []
        by_cases h2 : existing ≤ dateMs
        · rw [if_pos (by simpa using h2)]
          exact ⟨fun _ => rfl, fun hn => absurd (Or.inr (Or.inl ⟨existing, rfl, h2⟩)) hn⟩
        · rw [if_neg (by simpa using h2)]
          by_cases h3 : s.lastFired = some dateMs
          · rw [if_pos h3]
            refine ⟨fun _ => rfl, fun hn => absurd (Or.inr (Or.inr h3)) hn⟩
          · rw [if_neg h3]
            refine ⟨?_, fun _ => rfl⟩
            rintro (h | ⟨ex, hex, hle⟩ | h)
            · exact absurd h h1
            · obtain rfl : existing = ex := by injection hex
              exact absurd hle h2
            · exact absurd h h3

/-- A bare scheduler state used to instantiate claims. -/
def emptyState : SchedState := ⟨[], [], [], [], none, none, none⟩

/-- Witness for C8: a fresh candidate is armed; a near-past candidate is
skipped. -/
theorem C8_scheduleAlarm_rules_witness :
    scheduleAlarm 0 1000 emptyState
      = { emptyState with pending := some 1000, armed := some 1000 } ∧
    scheduleAlarm 0 10 emptyState = emptyState :=
  ⟨(C8_scheduleAlarm_rules 0 1000 emptyState).2 (by
      rintro (h | ⟨ex, hex, _⟩ | h)
      · exact absurd h (by decide)
      · exact absurd hex (by simp [emptyState])
      · exact absurd h (by simp [emptyState])),
   (C8_scheduleAlarm_rules 0 10 emptyState).1 (Or.inl (by decide))⟩

/-- A maximal digit run followed by the literal cron tail splits as
expected under `takeWhile`/`dropWhile`, since the tail starts with a
space. -/
theorem takeWhile_digits (ds : List Char) (hds : ∀ c ∈ ds, c.isDigit) :
    (ds ++ cronTail).takeWhile Char.isDigit = ds ∧
    (ds ++ cronTail).dropWhile Char.isDigit = cronTail := by
  induction ds with
  | nil => exact ⟨rfl, rfl⟩
  | cons c cs ih =>
    have hc : c.isDigit := hds c (List.mem_cons_self c cs)
    have ih' := ih (fun x hx => hds x (List.mem_cons_of_mem c hx))
    constructor
    · rw [List.cons_append, List.takeWhile_cons, if_pos hc, ih'.1]
    · rw [List.cons_append, List.dropWhile_cons, if_pos hc, ih'.2]

/-- Characterization of the regex match of line 95: it succeeds exactly
on `*/` + non-empty digit run + `" * * * *"`, yielding the run's
value. -/
theorem matchEveryN_some_iff (cs : List Char) (n : Nat) :
    matchEveryN cs = some n ↔
      ∃ ds, cs = '*' :: '/' :: (ds ++ cronTail) ∧ ds ≠ [] ∧
        (∀ c ∈ ds, c.isDigit) ∧ digitsVal ds = n := by
  cases cs with
  | nil => simp [matchEveryN]
  | cons c1 cs1 =>
    cases cs1 with
    | nil => simp [matchEveryN]
    | cons c2 rest =>
      by_cases hstar : c1 = '*' ∧ c2 = '/'
      · obtain ⟨rfl, rfl⟩ := hstar
        constructor
        · intro h
          rw [matchEveryN, if_pos ⟨rfl, rfl⟩] at h
          by_cases he : (rest.takeWhile Char.isDigit).isEmpty
          · rw [if_pos he] at h; exact absurd h (by simp)
          · rw [if_neg he] at h
            by_cases hd : rest.dropWhile Char.isDigit = cronTail
            · rw [if_pos hd] at h
              refine ⟨rest.takeWhile Char.isDigit, ?_, ?_, ?_, Option.some.inj h⟩
              · conv_lhs =>
                  rw [show rest = rest.takeWhile Char.isDigit ++ rest.dropWhile Char.isDigit
                        from (List.takeWhile_append_dropWhile ..).symm]
                rw [hd]
              · simpa [List.isEmpty_iff] using he
              · intro c hc; exact List.mem_takeWhile_imp hc
            · rw [if_neg hd] at h; exact absurd h (by simp)
        · rintro ⟨ds, hcs, hne, hdig, hval⟩
          have hrest : rest = ds ++ cronTail := by
            injection hcs with _ h'; injection h' with _ h''
          subst hrest
          obtain ⟨ht, hd⟩ := takeWhile_digits ds hdig
          rw [matchEveryN, if_pos ⟨rfl, rfl⟩]
          rw [show (ds ++ cronTail).takeWhile Char.isDigit = ds from ht,
              show (ds ++ cronTail).dropWhile Char.isDigit = cronTail from hd]
          rw [if_neg (by simpa [List.isEmpty_iff] using hne), if_pos rfl, hval]
      · constructor
        · intro h
          rw [matchEveryN, if_neg hstar] at h
          exact absurd h (by simp)
        · rintro ⟨ds, hcs, _, _, _⟩
          have h1 : c1 = '*' := by injection hcs
          have h2 : c2 = '/' := by
            injection hcs with _ h'; injection h'
          exact absurd ⟨h1, h2⟩ hstar

/-- C3: `computeNextFromSimpleCron expr from` returns a value exactly
when the trimmed expression has the shape `*/N * * * *` with `N` a
(positive-valued) digit run, and then the value is `from + N` minutes;
every other expression yields `none` (unsupported). -/
theorem C3_computeNext_characterization (expr : String) (fromMs r : Int) :
    computeNextFromSimpleCron expr fromMs = some r ↔
      ∃ ds : List Char,
        trimChars expr.toList = '*' :: '/' :: (ds ++ cronTail) ∧
        ds ≠ [] ∧ (∀ c ∈ ds, c.isDigit) ∧ 0 < digitsVal ds ∧
        r = fromMs + (digitsVal ds : Int) * 60000 := by
  unfold computeNextFromSimpleCron
  cases hm : matchEveryN (trimChars expr.toList) with
  | none =>
    constructor
    · intro h; exact absurd h (by simp)
    · rintro ⟨ds, hcs, hne, hdig, hpos, hr⟩
      have hsome : matchEveryN (trimChars expr.toList) = some (digitsVal ds) :=
        (matchEveryN_some_iff _ _).2 ⟨ds, hcs, hne, hdig, rfl⟩
      rw [hm] at hsome
      exact absurd hsome (by simp)
  | some n =>
    dsimp only
    by_cases hz : n = 0
    · subst hz
      rw [if_pos rfl]
      constructor
      · intro h; exact absurd h (by simp)
      · rintro ⟨ds, hcs, hne, hdig, hpos, hr⟩
        have hsome : matchEveryN (trimChars expr.toList) = some (digitsVal ds) :=
          (matchEveryN_some_iff _ _).2 ⟨ds, hcs, hne, hdig, rfl⟩
        rw [hm] at hsome
        have : digitsVal ds = 0 := (Option.some.inj hsome).symm
        omega
    · rw [if_neg hz]
      obtain ⟨ds, hcs, hne, hdig, hval⟩ := (matchEveryN_some_iff _ _).1 hm
      constructor
      · intro h
        exact ⟨ds, hcs, hne, hdig, by omega,
          by rw [hval]; exact (Option.some.inj h).symm⟩
      · rintro ⟨ds', hcs', hne', hdig', hpos', hr'⟩
        have hds : ds = ds' := by
          have h2 := hcs.symm.trans hcs'
          injection h2 with _ h3; injection h3 with _ h4
          exact List.append_cancel_right h4
        subst hds
        rw [hval] at hr'
        rw [hr']


/-! ### Storage and wake-cycle lemmas -/

theorem storageGet_put_self {α : Type} (k : String) (v : α) (m : List (String × α)) :
    storageGet k (storagePut k v m) = some v := by
  induction m with
  | nil => simp [storageGet, storagePut]
  | cons e rest ih =>
    obtain ⟨k', v'⟩ := e
    by_cases h : k' = k
    · simp [storagePut, storageGet, h]
    · simp only [storagePut, storageGet, if_neg h]
      exact ih

theorem storageGet_put_ne {α : Type} {k' k : String} (h : k' ≠ k) (v : α)
    (m : List (String × α)) :
    storageGet k (storagePut k' v m) = storageGet k m := by
  induction m with
  | nil => simp [storageGet, storagePut, h]
  | cons e rest ih =>
    obtain ⟨k0, v0⟩ := e
    by_cases h0 : k0 = k'
    · subst h0
      simp [storagePut, storageGet, h]
    · simp only [storagePut, if_neg h0, storageGet]
      by_cases h1 : k0 = k
      · rw [if_pos h1, if_pos h1]
      · rw [if_neg h1, if_neg h1]
        exact ih

/-- Any successful recomputation lands at least one minute after its
`from` instant (the digit value is at least 1). -/
theorem computeNext_ge {c : String} {t r : Int}
    (h : computeNextFromSimpleCron c t = some r) : t + 60000 ≤ r := by
  unfold computeNextFromSimpleCron at h
  cases hm : matchEveryN (trimChars c.toList) with
  | none => rw [hm] at h; exact absurd h (by simp)
  | some n =>
    rw [hm] at h
    dsimp only at h
    by_cases hz : n = 0
    · rw [if_pos hz] at h; exact absurd h (by simp)
    · rw [if_neg hz] at h
      have hr := Option.some.inj h
      have h1 : (1 : Int) ≤ (n : Int) := by
        exact_mod_cast Nat.one_le_iff_ne_zero.2 hz
      nlinarith [hr]

section VisitEquations

variable {evIds : Nat → String} {now : Int} {id : String} {st : CycleSt} {task : Task}

/-- Step equation: no stored record for `id`. -/
theorem alarmVisit_no_task (h : storageGet id st.tasks = none) :
    alarmVisit evIds now id st = st := by
  unfold alarmVisit; rw [h]

/-- Step equation: disabled task. -/
theorem alarmVisit_disabled (h : storageGet id st.tasks = some task)
    (hen : task.enabled = false) :
    alarmVisit evIds now id st = st := by
  unfold alarmVisit; rw [h]; dsimp only; rw [if_pos hen]

/-- Step equation: absent or unparsable `nextRun`. -/
theorem alarmVisit_bad_next (h : storageGet id st.tasks = some task)
    (hen : task.enabled = true)
    (hnr : task.nextRun = none ∨ task.nextRun = some none) :
    alarmVisit evIds now id st = st := by
  unfold alarmVisit; rw [h]; dsimp only
  rw [if_neg (by simp [hen])]
  rcases hnr with hnr | hnr <;> rw [hnr]

/-- Step equation: not-due task (strictly future `nextRun`). -/
theorem alarmVisit_not_due {nr : Int} (h : storageGet id st.tasks = some task)
    (hen : task.enabled = true)
    (hnr : task.nextRun = some (some nr))
    (hfut : now + TOLERANCE_MS < nr) :
    alarmVisit evIds now id st = { st with earliest := mergeEarliest st.earliest nr } := by
  unfold alarmVisit; rw [h]; dsimp only
  rw [if_neg (by simp [hen]), hnr]
  dsimp only
  rw [if_neg (by omega), if_pos hfut]

/-- Step equation: due task with falsy `recurrence` (single run). -/
theorem alarmVisit_due_single {nr : Int} (h : storageGet id st.tasks = some task)
    (hen : task.enabled = true)
    (hnr : task.nextRun = some (some nr))
    (hdue : nr ≤ now + TOLERANCE_MS)
    (hrec : recTruthy task.recurrence = false) :
    alarmVisit evIds now id st =
      { tasks := storagePut id { task with enabled := false, nextRun := none } st.tasks,
        lastRun := storagePut id now st.lastRun,
        earliest := st.earliest,
        fired := st.fired ++
          [{ id := evIds st.k, taskId := id, title := titleOrDefault task.title,
             kind := .fired, occurredAt := some now, nextRun := none,
             note := "Task completed" }],
        k := st.k + 1 } := by
  unfold alarmVisit; rw [h]; dsimp only
  rw [if_neg (by simp [hen]), hnr]
  dsimp only
  rw [if_pos hdue, if_pos hrec]

/-- Step equation: due task with truthy `recurrence` and a supported
cron (rescheduled). -/
theorem alarmVisit_due_resched {nr nxt : Int} (h : storageGet id st.tasks = some task)
    (hen : task.enabled = true)
    (hnr : task.nextRun = some (some nr))
    (hdue : nr ≤ now + TOLERANCE_MS)
    (hrec : recTruthy task.recurrence = true)
    (hc : computeNextFromSimpleCron (cronExprOf task) now = some nxt) :
    alarmVisit evIds now id st =
      { tasks := storagePut id { task with nextRun := some (some nxt) } st.tasks,
        lastRun := storagePut id now st.lastRun,
        earliest := mergeEarliest st.earliest nxt,
        fired := st.fired ++
          [{ id := evIds st.k, taskId := id, title := titleOrDefault task.title,
             kind := .fired, occurredAt := some now, nextRun := some (some nxt),
             note := "Recurring task rescheduled" }],
        k := st.k + 1 } := by
  unfold alarmVisit; rw [h]; dsimp only
  rw [if_neg (by simp [hen]), hnr]
  dsimp only
  rw [if_pos hdue, if_neg (by simp [hrec]), hc]

/-- Step equation: due task with truthy `recurrence` and an unsupported
cron (disabled). -/
theorem alarmVisit_due_invalid {nr : Int} (h : storageGet id st.tasks = some task)
    (hen : task.enabled = true)
    (hnr : task.nextRun = some (some nr))
    (hdue : nr ≤ now + TOLERANCE_MS)
    (hrec : recTruthy task.recurrence = true)
    (hc : computeNextFromSimpleCron (cronExprOf task) now = none) :
    alarmVisit evIds now id st =
      { tasks := storagePut id { task with enabled := false, nextRun := none } st.tasks,
        lastRun := storagePut id now st.lastRun,
        earliest := st.earliest,
        fired := st.fired ++
          [{ id := evIds st.k, taskId := id, title := titleOrDefault task.title,
             kind := .fired, occurredAt := some now, nextRun := none,
             note := "Recurring task disabled (invalid cron)" }],
        k := st.k + 1 } := by
  unfold alarmVisit; rw [h]; dsimp only
  rw [if_neg (by simp [hen]), hnr]
  dsimp only
  rw [if_pos hdue, if_neg (by simp [hrec]), hc]

end VisitEquations

/-- Outcome shape of one loop iteration: the task store is unchanged or
overwritten at the visited id, and the fired batch is unchanged or
extended by one event carrying the visited id. -/
theorem alarmVisit_shape (evIds : Nat → String) (now : Int) (id : String) (st : CycleSt) :
    ((alarmVisit evIds now id st).tasks = st.tasks ∨
      ∃ task1, (alarmVisit evIds now id st).tasks = storagePut id task1 st.tasks) ∧
    ((alarmVisit evIds now id st).fired = st.fired ∨
      ∃ ev : TaskEvent, ev.taskId = id ∧
        (alarmVisit evIds now id st).fired = st.fired ++ [ev]) := by
  cases hget : storageGet id st.tasks with
  | none => rw [alarmVisit_no_task hget]; exact ⟨Or.inl rfl, Or.inl rfl⟩
  | some task =>
    cases hen : task.enabled with
    | false => rw [alarmVisit_disabled hget hen]; exact ⟨Or.inl rfl, Or.inl rfl⟩
    | true =>
      rcases hnr : task.nextRun with _ | (_ | nr)
      · rw [alarmVisit_bad_next hget hen (Or.inl hnr)]; exact ⟨Or.inl rfl, Or.inl rfl⟩
      · rw [alarmVisit_bad_next hget hen (Or.inr hnr)]; exact ⟨Or.inl rfl, Or.inl rfl⟩
      · by_cases hdue : nr ≤ now + TOLERANCE_MS
        · cases hrec : recTruthy task.recurrence with
          | false =>
            rw [alarmVisit_due_single hget hen hnr hdue hrec]
            exact ⟨Or.inr ⟨_, rfl⟩, Or.inr ⟨_, rfl, rfl⟩⟩
          | true =>
            cases hc : computeNextFromSimpleCron (cronExprOf task) now with
            | some nxt =>
              rw [alarmVisit_due_resched hget hen hnr hdue hrec hc]
              exact ⟨Or.inr ⟨_, rfl⟩, Or.inr ⟨_, rfl, rfl⟩⟩
            | none =>
              rw [alarmVisit_due_invalid hget hen hnr hdue hrec hc]
              exact ⟨Or.inr ⟨_, rfl⟩, Or.inr ⟨_, rfl, rfl⟩⟩
        · rw [alarmVisit_not_due hget hen hnr (by omega)]
          exact ⟨Or.inl rfl, Or.inl rfl⟩

/-- The loop distributes over index concatenation. -/
theorem alarmLoop_append (evIds : Nat → String) (now : Int) (l1 l2 : List String)
    (st : CycleSt) :
    alarmLoop evIds now (l1 ++ l2) st = alarmLoop evIds now l2 (alarmLoop evIds now l1 st) := by
  induction l1 generalizing st with
  | nil => rfl
  | cons id rest ih =>
    rw [List.cons_append, alarmLoop, alarmLoop]
    exact ih _

/-- Processing ids other than `id` never changes the record stored at
`id`. -/
theorem alarmLoop_tasks_frame {evIds : Nat → String} {now : Int} {id : String}
    (ids : List String) (h : id ∉ ids) (st : CycleSt) :
    storageGet id (alarmLoop evIds now ids st).tasks = storageGet id st.tasks := by
  induction ids generalizing st with
  | nil => rfl
  | cons idp rest ih =>
    have h1 : id ≠ idp := fun he => h (by rw [he]; exact List.mem_cons_self _ _)
    have h2 : id ∉ rest := fun hm => h (List.mem_cons_of_mem _ hm)
    rw [alarmLoop, ih h2 _]
    rcases (alarmVisit_shape evIds now idp st).1 with he | ⟨task1, he⟩
    · rw [he]
    · rw [he, storageGet_put_ne (Ne.symm h1) _ _]

/-- The loop only appends to the fired batch, and each appended event
carries the id of some visited task. -/
theorem alarmLoop_fired_extend (evIds : Nat → String) (now : Int) (ids : List String)
    (st : CycleSt) :
    ∃ news, (alarmLoop evIds now ids st).fired = st.fired ++ news ∧
      ∀ ev ∈ news, ev.taskId ∈ ids := by
  induction ids generalizing st with
  | nil => exact ⟨[], by simp [alarmLoop], by simp⟩
  | cons idp rest ih =>
    rw [alarmLoop]
    obtain ⟨news, hn, hmem⟩ := ih (alarmVisit evIds now idp st)
    rcases (alarmVisit_shape evIds now idp st).2 with he | ⟨ev, hevid, he⟩
    · exact ⟨news, by rw [hn, he], fun e hm => List.mem_cons_of_mem _ (hmem e hm)⟩
    · refine ⟨ev :: news, ?_, ?_⟩
      · rw [hn, he, List.append_assoc]
        rfl
      · intro e hm
        rcases List.mem_cons.1 hm with rfl | hm2
        · rw [hevid]; exact List.mem_cons_self _ _
        · exact List.mem_cons_of_mem _ (hmem e hm2)

/-- The stored record at `id` offers nothing due at `now`: it is
missing, disabled, has no parseable `nextRun`, or its `nextRun` lies
strictly beyond the tolerance window. -/
def notDueAt (now : Int) (tasks : List (String × Task)) (id : String) : Prop :=
  ∀ task : Task, storageGet id tasks = some task → task.enabled = true →
    ∀ nr : Int, task.nextRun = some (some nr) → now + TOLERANCE_MS < nr

/-- After its own visit, a task is never due again at the same
instant. -/
theorem alarmVisit_self_notDue (evIds : Nat → String) (now : Int) (id : String)
    (st : CycleSt) :
    notDueAt now (alarmVisit evIds now id st).tasks id := by
  cases hget : storageGet id st.tasks with
  | none =>
    rw [alarmVisit_no_task hget]
    intro task hg
    rw [hget] at hg
    cases hg
  | some task =>
    cases hen : task.enabled with
    | false =>
      rw [alarmVisit_disabled hget hen]
      intro task2 hg he
      rw [hget] at hg
      obtain rfl := Option.some.inj hg
      rw [hen] at he
      cases he
    | true =>
      rcases hnr : task.nextRun with _ | (_ | nr)
      · rw [alarmVisit_bad_next hget hen (Or.inl hnr)]
        intro task2 hg _ nr2 hn
        rw [hget] at hg
        obtain rfl := Option.some.inj hg
        rw [hnr] at hn
        cases hn
      · rw [alarmVisit_bad_next hget hen (Or.inr hnr)]
        intro task2 hg _ nr2 hn
        rw [hget] at hg
        obtain rfl := Option.some.inj hg
        rw [hnr] at hn
        obtain h2 := Option.some.inj hn
        cases h2
      · by_cases hdue : nr ≤ now + TOLERANCE_MS
        · cases hrec : recTruthy task.recurrence with
          | false =>
            rw [alarmVisit_due_single hget hen hnr hdue hrec]
            intro task2 hg he
            rw [storageGet_put_self] at hg
            obtain rfl := Option.some.inj hg
            cases he
          | true =>
            cases hc : computeNextFromSimpleCron (cronExprOf task) now with
            | some nxt =>
              rw [alarmVisit_due_resched hget hen hnr hdue hrec hc]
              intro task2 hg _ nr2 hn
              rw [storageGet_put_self] at hg
              obtain rfl := Option.some.inj hg
              obtain h3 := Option.some.inj (Option.some.inj hn)
              have hb := computeNext_ge hc
              show now + (250 : Int) < nr2
              omega
            | none =>
              rw [alarmVisit_due_invalid hget hen hnr hdue hrec hc]
              intro task2 hg he
              rw [storageGet_put_self] at hg
              obtain rfl := Option.some.inj hg
              cases he
        · rw [alarmVisit_not_due hget hen hnr (by omega)]
          intro task2 hg _ nr2 hn
          rw [hget] at hg
          obtain rfl := Option.some.inj hg
          rw [hnr] at hn
          obtain h3 := Option.some.inj (Option.some.inj hn)
          omega

/-- Visiting any id preserves not-dueness of every id. -/
theorem alarmVisit_preserves_notDue (evIds : Nat → String) (now : Int)
    {id : String} (idp : String) (st : CycleSt)
    (h : notDueAt now st.tasks id) :
    notDueAt now (alarmVisit evIds now idp st).tasks id := by
  by_cases he : idp = id
  · subst he
    exact alarmVisit_self_notDue evIds now idp st
  · rcases (alarmVisit_shape evIds now idp st).1 with heq | ⟨task1, heq⟩
    · intro task hg
      rw [heq] at hg
      exact h task hg
    · intro task hg
      rw [heq, storageGet_put_ne he _ _] at hg
      exact h task hg

/-- The loop preserves not-dueness. -/
theorem alarmLoop_preserves_notDue (evIds : Nat → String) (now : Int) {id : String}
    (ids : List String) (st : CycleSt) (h : notDueAt now st.tasks id) :
    notDueAt now (alarmLoop evIds now ids st).tasks id := by
  induction ids generalizing st with
  | nil => exact h
  | cons idp rest ih =>
    rw [alarmLoop]
    exact ih _ (alarmVisit_preserves_notDue evIds now idp st h)

/-- After a full pass over the index, every indexed task is not due. -/
theorem alarmLoop_all_notDue (evIds : Nat → String) (now : Int) (ids : List String)
    (st : CycleSt) :
    ∀ id ∈ ids, notDueAt now (alarmLoop evIds now ids st).tasks id := by
  induction ids generalizing st with
  | nil => intro id h; cases h
  | cons idp rest ih =>
    intro id hm
    rw [alarmLoop]
    rcases List.mem_cons.1 hm with rfl | hm2
    · exact alarmLoop_preserves_notDue evIds now rest _
        (alarmVisit_self_notDue evIds now id st)
    · exact ih _ id hm2

/-- Visiting a not-due id changes neither the task store, the last-run
markers, the fired batch, nor the draw counter. -/
theorem alarmVisit_stable_of_notDue (evIds : Nat → String) (now : Int) (id : String)
    (st : CycleSt) (h : notDueAt now st.tasks id) :
    (alarmVisit evIds now id st).tasks = st.tasks ∧
    (alarmVisit evIds now id st).fired = st.fired := by
  cases hget : storageGet id st.tasks with
  | none => rw [alarmVisit_no_task hget]; exact ⟨rfl, rfl⟩
  | some task =>
    cases hen : task.enabled with
    | false => rw [alarmVisit_disabled hget hen]; exact ⟨rfl, rfl⟩
    | true =>
      rcases hnr : task.nextRun with _ | (_ | nr)
      · rw [alarmVisit_bad_next hget hen (Or.inl hnr)]; exact ⟨rfl, rfl⟩
      · rw [alarmVisit_bad_next hget hen (Or.inr hnr)]; exact ⟨rfl, rfl⟩
      · by_cases hdue : nr ≤ now + TOLERANCE_MS
        · exact absurd (h task hget hen nr hnr) (by omega)
        · rw [alarmVisit_not_due hget hen hnr (by omega)]; exact ⟨rfl, rfl⟩

/-- A loop over only not-due ids changes neither the task store nor the
fired batch. -/
theorem alarmLoop_stable_of_notDue (evIds : Nat → String) (now : Int)
    (ids : List String) (st : CycleSt)
    (h : ∀ id ∈ ids, notDueAt now st.tasks id) :
    (alarmLoop evIds now ids st).tasks = st.tasks ∧
    (alarmLoop evIds now ids st).fired = st.fired := by
  induction ids generalizing st with
  | nil => exact ⟨rfl, rfl⟩
  | cons idp rest ih =>
    rw [alarmLoop]
    obtain ⟨ht, hf⟩ :=
      alarmVisit_stable_of_notDue evIds now idp st (h idp (List.mem_cons_self _ _))
    have hrest : ∀ id ∈ rest, notDueAt now (alarmVisit evIds now idp st).tasks id := by
      intro id hm
      rw [ht]
      exact h id (List.mem_cons_of_mem _ hm)
    obtain ⟨h1, h2⟩ := ih _ hrest
    exact ⟨h1.trans ht, h2.trans hf⟩

/-- `scheduleAlarm` touches only the `pending` and `armed` fields. -/
theorem scheduleAlarm_parts (now d : Int) (s : SchedState) :
    (scheduleAlarm now d s).index = s.index ∧
    (scheduleAlarm now d s).tasks = s.tasks ∧
    (scheduleAlarm now d s).lastRun = s.lastRun ∧
    (scheduleAlarm now d s).events = s.events := by
  unfold scheduleAlarm
  split
  · exact ⟨rfl, rfl, rfl, rfl⟩
  · dsimp only
    split
    · exact ⟨rfl, rfl, rfl, rfl⟩
    · split
      · exact ⟨rfl, rfl, rfl, rfl⟩
      · exact ⟨rfl, rfl, rfl, rfl⟩

/-- Components of the post-wake state in terms of the loop outcome. -/
theorem alarmStep_parts (evIds : Nat → String) (now : Int) (s : SchedState) :
    (alarmStep evIds now s).index = s.index ∧
    (alarmStep evIds now s).tasks
      = (alarmLoop evIds now s.index ⟨s.tasks, s.lastRun, none, [], 0⟩).tasks ∧
    (alarmStep evIds now s).events
      = (if (alarmFired evIds now s).isEmpty then s.events
         else appendEvents (alarmFired evIds now s) s.events) := by
  unfold alarmStep alarmFired
  dsimp only
  split
  · exact ⟨rfl, rfl, rfl⟩
  · obtain ⟨h1, h2, h3, h4⟩ := scheduleAlarm_parts now _
      ({ s with
          pending := none, lastFired := some (s.pending.getD now),
          tasks := (alarmLoop evIds now s.index ⟨s.tasks, s.lastRun, none, [], 0⟩).tasks,
          lastRun := (alarmLoop evIds now s.index ⟨s.tasks, s.lastRun, none, [], 0⟩).lastRun,
          events :=
            if (alarmLoop evIds now s.index ⟨s.tasks, s.lastRun, none, [], 0⟩).fired.isEmpty
            then s.events
            else appendEvents
              (alarmLoop evIds now s.index ⟨s.tasks, s.lastRun, none, [], 0⟩).fired s.events })
    exact ⟨h1, h2, h4⟩

/-- Decomposition properties of a fired batch with a unique focused
event: the count for the focused id is one, and any batch member
carrying that id is the focused event itself. -/
theorem fired_batch_props {news1 news2 : List TaskEvent} {ev0 : TaskEvent}
    {pre post : List String} {id : String} {L : List TaskEvent}
    (hL : L = (news1 ++ [ev0]) ++ news2)
    (hm1 : ∀ e ∈ news1, e.taskId ∈ pre) (hm2 : ∀ e ∈ news2, e.taskId ∈ post)
    (hpre : id ∉ pre) (hpost : id ∉ post) (hev : ev0.taskId = id) :
    L.countP (fun e => e.taskId == id) = 1 ∧
    ∀ e ∈ L, e.taskId = id → e = ev0 := by
  subst hL
  constructor
  · rw [List.countP_append, List.countP_append]
    have hz1 : news1.countP (fun e => e.taskId == id) = 0 :=
      List.countP_eq_zero.2 (by
        intro a ha
        simp only [beq_iff_eq]
        intro heq
        exact hpre (heq ▸ hm1 a ha))
    have hz2 : news2.countP (fun e => e.taskId == id) = 0 :=
      List.countP_eq_zero.2 (by
        intro a ha
        simp only [beq_iff_eq]
        intro heq
        exact hpost (heq ▸ hm2 a ha))
    have h1 : ([ev0].countP (fun e => e.taskId == id)) = 1 := by
      simp [hev]
    omega
  · intro e he hid
    rcases List.mem_append.1 he with he1 | he2
    · rcases List.mem_append.1 he1 with he3 | he4
      · exact absurd (hid ▸ hm1 e he3) hpre
      · simpa using he4
    · exact absurd (hid ▸ hm2 e he2) hpost

/-- A due task always fires exactly one event carrying its id, whatever
the recurrence branch. -/
theorem alarmVisit_due_fires {evIds : Nat → String} {now : Int} {id : String}
    {st : CycleSt} {task : Task} {nr : Int}
    (ht : storageGet id st.tasks = some task)
    (hen : task.enabled = true)
    (hnr : task.nextRun = some (some nr))
    (hdue : nr ≤ now + TOLERANCE_MS) :
    ∃ ev : TaskEvent, ev.taskId = id ∧ ev.kind = .fired ∧ ev.occurredAt = some now ∧
      (alarmVisit evIds now id st).fired = st.fired ++ [ev] := by
  cases hrec : recTruthy task.recurrence with
  | false =>
    rw [alarmVisit_due_single ht hen hnr hdue hrec]
    exact ⟨_, rfl, rfl, rfl, rfl⟩
  | true =>
    cases hc : computeNextFromSimpleCron (cronExprOf task) now with
    | some nxt =>
      rw [alarmVisit_due_resched ht hen hnr hdue hrec hc]
      exact ⟨_, rfl, rfl, rfl, rfl⟩
    | none =>
      rw [alarmVisit_due_invalid ht hen hnr hdue hrec hc]
      exact ⟨_, rfl, rfl, rfl, rfl⟩

/-- C2: a due, enabled task without recurrence is disabled with
`nextRun` cleared, and exactly one `fired` event with note
"Task completed" is batched for it in the wake cycle. -/
theorem C2_single_run_completed (evIds : Nat → String) (now : Int) (s : SchedState)
    (pre post : List String) (id : String) (task : Task) (nr : Int)
    (hidx : s.index = pre ++ id :: post)
    (hpre : id ∉ pre) (hpost : id ∉ post)
    (ht : storageGet id s.tasks = some task)
    (hen : task.enabled = true)
    (hrec : recTruthy task.recurrence = false)
    (hnr : task.nextRun = some (some nr))
    (hdue : nr ≤ now + TOLERANCE_MS) :
    storageGet id (alarmStep evIds now s).tasks
      = some { task with enabled := false, nextRun := none } ∧
    (alarmFired evIds now s).countP (fun ev => ev.taskId == id) = 1 ∧
    ∀ ev ∈ alarmFired evIds now s, ev.taskId = id →
      ev.kind = .fired ∧ ev.note = "Task completed" ∧ ev.nextRun = none ∧
      ev.occurredAt = some now := by
  obtain ⟨hix, hts, hev⟩ := alarmStep_parts evIds now s
  have hloop : alarmLoop evIds now s.index (⟨s.tasks, s.lastRun, none, [], 0⟩ : CycleSt)
      = alarmLoop evIds now post
          (alarmVisit evIds now id
            (alarmLoop evIds now pre (⟨s.tasks, s.lastRun, none, [], 0⟩ : CycleSt))) := by
    rw [hidx, alarmLoop_append, alarmLoop]
  have ht1 : storageGet id
      (alarmLoop evIds now pre (⟨s.tasks, s.lastRun, none, [], 0⟩ : CycleSt)).tasks
      = some task := by
    rw [alarmLoop_tasks_frame pre hpre _]
    exact ht
  have hvis := @alarmVisit_due_single evIds _ _ _ _ _ ht1 hen hnr hdue hrec
  obtain ⟨news1, hf1, hm1⟩ :=
    alarmLoop_fired_extend evIds now pre (⟨s.tasks, s.lastRun, none, [], 0⟩ : CycleSt)
  obtain ⟨news2, hf2, hm2⟩ :=
    alarmLoop_fired_extend evIds now post
      (alarmVisit evIds now id
        (alarmLoop evIds now pre (⟨s.tasks, s.lastRun, none, [], 0⟩ : CycleSt)))
  obtain ⟨ev0, hevf, hevid, hevk, hevnote, hevnr, hevoc⟩ :
      ∃ ev0 : TaskEvent,
        (alarmVisit evIds now id
          (alarmLoop evIds now pre (⟨s.tasks, s.lastRun, none, [], 0⟩ : CycleSt))).fired
          = (alarmLoop evIds now pre (⟨s.tasks, s.lastRun, none, [], 0⟩ : CycleSt)).fired
              ++ [ev0] ∧
        ev0.taskId = id ∧ ev0.kind = .fired ∧ ev0.note = "Task completed" ∧
        ev0.nextRun = none ∧ ev0.occurredAt = some now := by
    rw [hvis]
    exact ⟨_, rfl, rfl, rfl, rfl, rfl, rfl⟩
  have hfired : alarmFired evIds now s = (news1 ++ [ev0]) ++ news2 := by
    show (alarmLoop evIds now s.index (⟨s.tasks, s.lastRun, none, [], 0⟩ : CycleSt)).fired = _
    rw [hloop, hf2, hevf, hf1]
    simp
  obtain ⟨hcnt, hchar⟩ := fired_batch_props hfired hm1 hm2 hpre hpost hevid
  refine ⟨?_, hcnt, ?_⟩
  · rw [hts, hloop, alarmLoop_tasks_frame post hpost _, hvis]
    exact storageGet_put_self _ _ _
  · intro ev hm hid
    rw [hchar ev hm hid]
    exact ⟨hevk, hevnote, hevnr, hevoc⟩

/-- Concrete single-run task for the C2 witness: due at wake time. -/
def w2Task : Task :=
  { id := "t2", title := "Standup", description := none, createdAt := 0,
    timing := .delay (some 1), recurrence := none, enabled := true,
    nextRun := some (some 1000), metadata := [] }

/-- Scheduler state holding only `w2Task`. -/
def w2State : SchedState := ⟨["t2"], [("t2", w2Task)], [], [], none, none, none⟩

/-- Identifier supply for witnesses. -/
def wIds : Nat → String := fun n => "w" ++ toString n

/-- Witness for C2 on the concrete state `w2State` at instant 2000. -/
theorem C2_single_run_completed_witness :
    storageGet "t2" (alarmStep wIds 2000 w2State).tasks
      = some { w2Task with enabled := false, nextRun := none } ∧
    (alarmFired wIds 2000 w2State).countP (fun ev => ev.taskId == "t2") = 1 := by
  have h := C2_single_run_completed wIds 2000 w2State [] [] "t2" w2Task 1000
    rfl (by simp) (by simp) (by decide) rfl (by decide) rfl (by decide)
  exact ⟨h.1, h.2.1⟩

/-- C1 (amended): a due, enabled task whose timing is `recurring cron`
with a supported cron AND whose legacy `recurrence` field is non-empty
is rescheduled strictly after the firing instant, stays enabled, and
exactly one `fired` event with note "Recurring task rescheduled" is
batched for it. -/
theorem C1_recurring_rescheduled (evIds : Nat → String) (now : Int) (s : SchedState)
    (pre post : List String) (id : String) (task : Task) (cron : String) (nr nxt : Int)
    (hidx : s.index = pre ++ id :: post)
    (hpre : id ∉ pre) (hpost : id ∉ post)
    (ht : storageGet id s.tasks = some task)
    (hen : task.enabled = true)
    (htim : task.timing = .recurring cron)
    (hrec : recTruthy task.recurrence = true)
    (hnr : task.nextRun = some (some nr))
    (hdue : nr ≤ now + TOLERANCE_MS)
    (hc : computeNextFromSimpleCron cron now = some nxt) :
    storageGet id (alarmStep evIds now s).tasks
      = some { task with nextRun := some (some nxt) } ∧
    ({ task with nextRun := some (some nxt) } : Task).enabled = true ∧
    now < nxt ∧
    (alarmFired evIds now s).countP (fun ev => ev.taskId == id) = 1 ∧
    ∀ ev ∈ alarmFired evIds now s, ev.taskId = id →
      ev.kind = .fired ∧ ev.note = "Recurring task rescheduled" ∧
      ev.nextRun = some (some nxt) ∧ ev.occurredAt = some now := by
  have hce : cronExprOf task = cron := by
    unfold cronExprOf
    rw [htim]
  have hc2 : computeNextFromSimpleCron (cronExprOf task) now = some nxt := by
    rw [hce]; exact hc
  obtain ⟨hix, hts, hev⟩ := alarmStep_parts evIds now s
  have hloop : alarmLoop evIds now s.index (⟨s.tasks, s.lastRun, none, [], 0⟩ : CycleSt)
      = alarmLoop evIds now post
          (alarmVisit evIds now id
            (alarmLoop evIds now pre (⟨s.tasks, s.lastRun, none, [], 0⟩ : CycleSt))) := by
    rw [hidx, alarmLoop_append, alarmLoop]
  have ht1 : storageGet id
      (alarmLoop evIds now pre (⟨s.tasks, s.lastRun, none, [], 0⟩ : CycleSt)).tasks
      = some task := by
    rw [alarmLoop_tasks_frame pre hpre _]
    exact ht
  have hvis := @alarmVisit_due_resched evIds _ _ _ _ _ _ ht1 hen hnr hdue hrec hc2
  obtain ⟨news1, hf1, hm1⟩ :=
    alarmLoop_fired_extend evIds now pre (⟨s.tasks, s.lastRun, none, [], 0⟩ : CycleSt)
  obtain ⟨news2, hf2, hm2⟩ :=
    alarmLoop_fired_extend evIds now post
      (alarmVisit evIds now id
        (alarmLoop evIds now pre (⟨s.tasks, s.lastRun, none, [], 0⟩ : CycleSt)))
  obtain ⟨ev0, hevf, hevid, hevk, hevnote, hevnr, hevoc⟩ :
      ∃ ev0 : TaskEvent,
        (alarmVisit evIds now id
          (alarmLoop evIds now pre (⟨s.tasks, s.lastRun, none, [], 0⟩ : CycleSt))).fired
          = (alarmLoop evIds now pre (⟨s.tasks, s.lastRun, none, [], 0⟩ : CycleSt)).fired
              ++ [ev0] ∧
        ev0.taskId = id ∧ ev0.kind = .fired ∧
        ev0.note = "Recurring task rescheduled" ∧
        ev0.nextRun = some (some nxt) ∧ ev0.occurredAt = some now := by
    rw [hvis]
    exact ⟨_, rfl, rfl, rfl, rfl, rfl, rfl⟩
  have hfired : alarmFired evIds now s = (news1 ++ [ev0]) ++ news2 := by
    show (alarmLoop evIds now s.index (⟨s.tasks, s.lastRun, none, [], 0⟩ : CycleSt)).fired = _
    rw [hloop, hf2, hevf, hf1]
    simp
  obtain ⟨hcnt, hchar⟩ := fired_batch_props hfired hm1 hm2 hpre hpost hevid
  have hlt : now < nxt := by
    have := computeNext_ge hc
    omega
  refine ⟨?_, hen, hlt, hcnt, ?_⟩
  · rw [hts, hloop, alarmLoop_tasks_frame post hpost _, hvis]
    exact storageGet_put_self _ _ _
  · intro ev hm hid
    rw [hchar ev hm hid]
    exact ⟨hevk, hevnote, hevnr, hevoc⟩

/-- Concrete recurring task (with non-empty `recurrence`) for the C1
witness: due at wake time 300000 with cron every five minutes. -/
def wTask : Task :=
  { id := "t1", title := "Heartbeat", description := none, createdAt := 0,
    timing := .recurring "*/5 * * * *", recurrence := some "*/5 * * * *",
    enabled := true, nextRun := some (some 300000), metadata := [] }

/-- Scheduler state holding only `wTask`. -/
def wState : SchedState := ⟨["t1"], [("t1", wTask)], [], [], none, none, none⟩

/-- Witness for the amended C1 on `wState` at instant 300000. -/
theorem C1_recurring_rescheduled_witness :
    storageGet "t1" (alarmStep wIds 300000 wState).tasks
      = some { wTask with nextRun := some (some 600000) } ∧
    (300000 : Int) < 600000 ∧
    (alarmFired wIds 300000 wState).countP (fun ev => ev.taskId == "t1") = 1 := by
  have h := C1_recurring_rescheduled wIds 300000 wState [] [] "t1" wTask
    "*/5 * * * *" 300000 600000
    rfl (by simp) (by simp) (by decide) rfl rfl (by decide) rfl (by decide) (by decide)
  exact ⟨h.1, h.2.2.1, h.2.2.2.1⟩

/-- Body of a create request with recurring timing and no `recurrence`
field, as in the claim of C1. -/
def cxBody : CreateBody :=
  { title := "Heartbeat", description := none,
    timing := .known (.recurring "*/5 * * * *"), recurrence := none,
    enabled := none, metadata := [] }

/-- Identifier supply for the C1 counterexample. -/
def cxIds : Nat → String := fun n => "cx" ++ toString n

/-- State after creating the C1 counterexample task at instant 0. -/
def cxCreated : SchedState := (createTask 0 "task1" "ev1" cxBody emptyState).2

/-- Counterexample to C1 as stated: a task created with timing
`recurring "*/5 * * * *"` (a valid `*/N * * * *` cron) and no separate
`recurrence` value is enabled and due at instant 300000, yet the wake
cycle disables it, clears `nextRun`, and fires the single event with
note "Task completed" — not "Recurring task rescheduled" — because the
alarm handler branches on the legacy `recurrence` field, not on the
timing variant. -/
theorem C1_counterexample :
    (storageGet "task1" cxCreated.tasks).map
        (fun t => (t.enabled, t.nextRun, t.timing))
      = some (true, some (some 300000), TaskTiming.recurring "*/5 * * * *") ∧
    (storageGet "task1" (alarmStep cxIds 300000 cxCreated).tasks).map
        (fun t => (t.enabled, t.nextRun)) = some (false, none) ∧
    (alarmFired cxIds 300000 cxCreated).map (fun ev => (ev.taskId, ev.kind, ev.note))
      = [("task1", TaskEventKind.fired, "Task completed")] := by
  decide

/-- C9: a due task fires exactly once in a wake cycle, and an
immediately repeated wake cycle at the same instant (no elapsed time,
no intervening creation) fires nothing and leaves the event log
unchanged. -/
theorem C9_second_cycle_idle (evIds evIds2 : Nat → String) (now : Int)
    (s : SchedState) (pre post : List String) (id : String) (task : Task) (nr : Int)
    (hidx : s.index = pre ++ id :: post)
    (hpre : id ∉ pre) (hpost : id ∉ post)
    (ht : storageGet id s.tasks = some task)
    (hen : task.enabled = true)
    (hnr : task.nextRun = some (some nr))
    (hdue : nr ≤ now + TOLERANCE_MS) :
    (alarmFired evIds now s).countP (fun ev => ev.taskId == id) = 1 ∧
    alarmFired evIds2 now (alarmStep evIds now s) = [] ∧
    (alarmStep evIds2 now (alarmStep evIds now s)).events
      = (alarmStep evIds now s).events := by
  have hloop : alarmLoop evIds now s.index (⟨s.tasks, s.lastRun, none, [], 0⟩ : CycleSt)
      = alarmLoop evIds now post
          (alarmVisit evIds now id
            (alarmLoop evIds now pre (⟨s.tasks, s.lastRun, none, [], 0⟩ : CycleSt))) := by
    rw [hidx, alarmLoop_append, alarmLoop]
  have ht1 : storageGet id
      (alarmLoop evIds now pre (⟨s.tasks, s.lastRun, none, [], 0⟩ : CycleSt)).tasks
      = some task := by
    rw [alarmLoop_tasks_frame pre hpre _]
    exact ht
  obtain ⟨ev0, hevid, hevk, hevoc, hevf⟩ :=
    @alarmVisit_due_fires evIds _ _ _ _ _ ht1 hen hnr hdue
  obtain ⟨news1, hf1, hm1⟩ :=
    alarmLoop_fired_extend evIds now pre (⟨s.tasks, s.lastRun, none, [], 0⟩ : CycleSt)
  obtain ⟨news2, hf2, hm2⟩ :=
    alarmLoop_fired_extend evIds now post
      (alarmVisit evIds now id
        (alarmLoop evIds now pre (⟨s.tasks, s.lastRun, none, [], 0⟩ : CycleSt)))
  have hfired : alarmFired evIds now s = (news1 ++ [ev0]) ++ news2 := by
    show (alarmLoop evIds now s.index (⟨s.tasks, s.lastRun, none, [], 0⟩ : CycleSt)).fired = _
    rw [hloop, hf2, hevf, hf1]
    simp
  obtain ⟨hix, hts, hev⟩ := alarmStep_parts evIds now s
  have hnd : ∀ i ∈ (alarmStep evIds now s).index,
      notDueAt now (alarmStep evIds now s).tasks i := by
    intro i hm
    rw [hts]
    exact alarmLoop_all_notDue evIds now s.index _ i (by rwa [hix] at hm)
  have hsecond : alarmFired evIds2 now (alarmStep evIds now s) = [] := by
    exact (alarmLoop_stable_of_notDue evIds2 now (alarmStep evIds now s).index
      ⟨(alarmStep evIds now s).tasks, (alarmStep evIds now s).lastRun, none, [], 0⟩
      (fun i hm => hnd i hm)).2
  refine ⟨(fired_batch_props hfired hm1 hm2 hpre hpost hevid).1, hsecond, ?_⟩
  obtain ⟨hix2, hts2, hev2⟩ := alarmStep_parts evIds2 now (alarmStep evIds now s)
  rw [hev2, hsecond]
  simp

/-- Concrete single-run task for the C9 witness. -/
def w9Task : Task :=
  { id := "t9", title := "Once", description := none, createdAt := 0,
    timing := .delay (some 1), recurrence := none, enabled := true,
    nextRun := some (some 1500), metadata := [] }

/-- Scheduler state holding only `w9Task`. -/
def w9State : SchedState := ⟨["t9"], [("t9", w9Task)], [], [], none, none, none⟩

/-- Witness for C9 on `w9State` at instant 2000. -/
theorem C9_second_cycle_idle_witness :
    (alarmFired wIds 2000 w9State).countP (fun ev => ev.taskId == "t9") = 1 ∧
    alarmFired cxIds 2000 (alarmStep wIds 2000 w9State) = [] := by
  have h := C9_second_cycle_idle wIds cxIds 2000 w9State [] [] "t9" w9Task 1500
    rfl (by simp) (by simp) (by decide) rfl rfl (by decide)
  exact ⟨h.1, h.2.1⟩

/-- The invalid create-request timings enumerated by C4: missing or
malformed timing, an unsupported variant tag, the `natural` variant, a
non-finite or non-positive delay, and an unparsable (or falsy)
datetime. -/
def invalidTiming (b : CreateBody) : Prop :=
  b.timing = .missing ∨
  (∃ ty, b.timing = .unknown ty) ∨
  (∃ text, b.timing = .known (.natural text)) ∨
  b.timing = .known (.delay none) ∨
  (∃ v, b.timing = .known (.delay (some v)) ∧ v ≤ 0) ∨
  b.timing = .known (.datetime none)

/-- C4: every create request with missing/invalid timing, an
unsupported variant, the `natural` variant, a non-finite or
non-positive delay, or an unparsable datetime is answered 400 with the
stored state unchanged (no task record, no index entry, no event). -/
theorem C4_invalid_create_rejected (now : Int) (tid eid : String) (b : CreateBody)
    (s : SchedState) (h : invalidTiming b) :
    createTask now tid eid b s = (400, s) := by
  rcases h with h | ⟨ty, h⟩ | ⟨text, h⟩ | h | ⟨v, h, hv⟩ | h
  · unfold createTask; rw [h]
  · unfold createTask; rw [h]
  · unfold createTask; rw [h]
  · unfold createTask; rw [h]
  · unfold createTask; rw [h]; dsimp only; rw [if_pos hv]
  · unfold createTask; rw [h]

/-- Create-request body with `natural` timing for the C4 witness. -/
def natBody : CreateBody :=
  { title := "x", description := none, timing := .known (.natural "soon"),
    recurrence := none, enabled := none, metadata := [] }

/-- Witness for C4 on a `natural`-timing body. -/
theorem C4_invalid_create_rejected_witness :
    createTask 0 "tid4" "eid4" natBody emptyState = (400, emptyState) :=
  C4_invalid_create_rejected 0 "tid4" "eid4" natBody emptyState
    (Or.inr (Or.inr (Or.inl ⟨"soon", rfl⟩)))

/-- C5: a create request with recurring timing whose cron is not a
supported every-N-minutes expression still succeeds with 201 and
persists the task (record stored, id appended to the index), but the
task is left without a `nextRun` (inert). -/
theorem C5_unsupported_cron_inert (now : Int) (tid eid : String) (b : CreateBody)
    (s : SchedState) (cron : String)
    (hb : b.timing = .known (.recurring cron))
    (hc : computeNextFromSimpleCron cron now = none) :
    (createTask now tid eid b s).1 = 201 ∧
    (createTask now tid eid b s).2.index = s.index ++ [tid] ∧
    ∃ t : Task, storageGet tid (createTask now tid eid b s).2.tasks = some t ∧
      t.nextRun = none ∧ t.timing = .recurring cron ∧
      t.title = (if b.title.isEmpty then "Untitled" else b.title) := by
  unfold createTask
  rw [hb]
  dsimp only
  rw [hc]
  unfold finishCreate
  dsimp only
  exact ⟨rfl, rfl, _, storageGet_put_self _ _ _, rfl, rfl, rfl⟩

/-- Create-request body with an unsupported cron for the C5 witness. -/
def badCronBody : CreateBody :=
  { title := "Ping", description := none,
    timing := .known (.recurring "0 12 * * *"),
    recurrence := none, enabled := none, metadata := [] }

/-- Witness for C5 on a daily-style cron the engine does not support. -/
theorem C5_unsupported_cron_inert_witness :
    (createTask 0 "tid5" "eid5" badCronBody emptyState).1 = 201 ∧
    (createTask 0 "tid5" "eid5" badCronBody emptyState).2.index
      = emptyState.index ++ ["tid5"] ∧
    ∃ t : Task,
      storageGet "tid5" (createTask 0 "tid5" "eid5" badCronBody emptyState).2.tasks
        = some t ∧
      t.nextRun = none ∧ t.timing = .recurring "0 12 * * *" ∧
      t.title = (if badCronBody.title.isEmpty then "Untitled" else badCronBody.title) :=
  C5_unsupported_cron_inert 0 "tid5" "eid5" badCronBody emptyState "0 12 * * *"
    rfl (by decide)

end TaskScheduler
